import Mathlib

/-!
Verification of the `xmltree` XML element-tree encoder (`marshal.go`).

The Go source serializes an in-memory tree of `Element` nodes to XML bytes,
escaping the four reserved characters, minimizing namespace declarations by
scope diffing, and guarding against cyclic or over-deep trees.

Modelling notes:
* Go strings and `[]byte` values are modelled as Lean `String`.
* Go pointers (`*Element`) are modelled as indices into an arena
  (`List Element`); the spec's design notes explicitly bless index-based
  identity as the model of reference identity for cycle detection.
* The tree encoder is stateful only through its `io.Writer`; the writer is
  modelled as an explicit output stream threaded through the functions,
  together with a failure policy saying which writes succeed.
* The mutual recursion of `encode` over children is realised with a fuel
  argument so that the definition is structural and computable; the public
  entry points supply `recursionLimit + 2` fuel, which can never be exhausted
  because the source returns as soon as `len(visited) > recursionLimit` and
  every recursive call grows `visited` by exactly one.
-/

/-- Model of Go `encoding/xml.Name`: a qualified name with namespace URI
(`Space`) and local part (`Local`). -/
structure XName where
  Space : String
  Local : String
deriving DecidableEq

/-- Model of Go `encoding/xml.Attr`: an attribute name/value pair. -/
structure XAttr where
  Name : XName
  Value : String
deriving DecidableEq

/-- Modelled from the spec: the `Scope` type is declared outside `marshal.go`;
spec section 3 and the uses in `diffScope` fix it as an ordered list of
namespace declarations, each an `xml.Name` whose `Local` is the declared
prefix and whose `Space` is the URI, accessed through the field `ns`. -/
structure Scope where
  ns : List XName
deriving DecidableEq

/-- Modelled from the spec: the `Element` type is declared outside
`marshal.go`; spec section 3 and the field accesses in `marshal.go` fix its
shape: an embedded start element (tag `Name` plus ordered `Attr` list), a
namespace `Scope`, raw decoded text `Content`, and ordered `Children`.
Children are arena indices, modelling the Go child pointers
`&el.Children[i]` (spec section 9: index-based identity). -/
structure Element where
  Name : XName
  Attr : List XAttr
  Scope : Scope
  Content : String
  Children : List Nat
deriving DecidableEq

/-- Default element used by the arena lookup for out-of-range indices; a
well-formed arena (the model of a Go heap, which has no invalid pointers)
never looks one up. -/
def dfltElement : Element := ⟨⟨"", ""⟩, [], ⟨[]⟩, "", []⟩

/-- Arena lookup: the model of dereferencing a Go `*Element`. -/
def getNode (a : List Element) (i : Nat) : Element := a.getD i dfltElement

/-- Model of Go `strings.Replace(s, pat, rep, -1)` on character lists:
replace every leftmost non-overlapping occurrence of `pat` by `rep`.
The extra fuel argument makes the scan structurally recursive; fuel equal to
the length of the scanned list suffices because every step consumes at least
one character, so the `0` case with a nonempty list is never reached from
`strReplace`. -/
def replaceFuel (pat rep : List Char) : Nat → List Char → List Char
  | 0, s => s
  | _ + 1, [] => []
  | fuel + 1, c :: rest =>
    if pat ≠ [] ∧ pat.isPrefixOf (c :: rest) then
      rep ++ replaceFuel pat rep fuel (List.drop pat.length (c :: rest))
    else c :: replaceFuel pat rep fuel rest

/-- Model of Go `strings.Replace(s, pat, rep, -1)` on `String`. -/
def strReplace (s pat rep : String) : String :=
  String.mk (replaceFuel pat.data rep.data s.data.length s.data)

/-- The `vContentMappings` table of `marshal.go`: decoded character paired
with its encoded entity, in source order. -/
def vContentMappings : List (String × String) :=
  [("&", "&amp;"), ("<", "&lt;"), (">", "&gt;"), ("\"", "&quot;")]

/-- `xmlEncodeString` of `marshal.go`: apply each mapping decoded→encoded in
table order. The Go function also returns an always-`nil` error, which is
omitted. -/
def xmlEncodeString (s : String) : String :=
  vContentMappings.foldl (fun acc m => strReplace acc m.1 m.2) s

/-- `xmlDecodeString` of `marshal.go`: apply each mapping encoded→decoded in
table order. The Go function also returns an always-`nil` error, which is
omitted. -/
def xmlDecodeString (s : String) : String :=
  vContentMappings.foldl (fun acc m => strReplace acc m.2 m.1) s

/-- Modelled from the spec: the fixed recursion limit constant is declared
outside `marshal.go`; spec sections 5 and 9 say it is an arbitrary fixed
ceiling, for example on the order of low hundreds, whose exact value is an
implementation choice. No claim depends on the value. -/
def recursionLimit : Nat := 200

/-- Modelled from the spec: the name-resolution method on `Scope` (called
from the tag template as `.Scope.Prefix .Name`) is declared outside
`marshal.go`. Per spec sections 3 and 6 it renders a qualified name: a name
with empty namespace renders as its local part, otherwise the innermost
declaration for the URI supplies the prefix (`p:local`, or just `local` for
the default namespace); names whose URI has no declaration fall back to the
local part. Every claim only exercises the empty-namespace case. -/
def Scope.qualify (scope : Scope) (n : XName) : String :=
  if n.Space = "" then n.Local
  else
    match scope.ns.reverse.find? (fun d => d.Space = n.Space) with
    | some d => if d.Local = "" then n.Local else d.Local ++ ":" ++ n.Local
    | none => n.Local

/-- The head of the rendered start tag, from the `start` template of
`tagTmpl`: `<` + qualified name, then each attribute as
` name="value"`, then each new namespace declaration as
` xmlns[:p]="uri"`. -/
def startTagHead (el : Element) (nsList : List XName) : String :=
  "<" ++ el.Scope.qualify el.Name
    ++ String.join (el.Attr.map (fun a =>
        " " ++ el.Scope.qualify a.Name ++ "=\"" ++ a.Value ++ "\""))
    ++ String.join (nsList.map (fun n =>
        " xmlns" ++ (if n.Local ≠ "" then ":" ++ n.Local else "")
          ++ "=\"" ++ n.Space ++ "\""))

/-- The full rendered start tag, from the `start` template of `tagTmpl`:
the head followed by `>` when the element has children or (escaped) content,
and by ` />` otherwise. -/
def renderStartTag (el : Element) (nsList : List XName) : String :=
  startTagHead el nsList ++ (if el.Children ≠ [] ∨ el.Content ≠ "" then ">" else " />")

/-- The rendered end tag, from the `end` template of `tagTmpl`. -/
def renderEndTag (el : Element) : String :=
  "</" ++ el.Scope.qualify el.Name ++ ">"

/-- The `encoder` struct of `marshal.go` minus its writer, which is passed
separately. The Go field holding the per-line leading string is named with
a word that is a Lean keyword, so it is called `pfix` here. -/
structure Encoder where
  pfix : String
  indent : String
  pretty : Bool

/-- Failure policy of an `io.Writer`: which write calls (counted from 0)
succeed. A Go writer may fail any subset of its calls; the model keys the
decision on the call index. -/
structure Sink where
  ok : Nat → Bool

/-- A writer that never fails: the model of `bytes.Buffer` used by `Marshal`
and `MarshalIndent`. -/
def neverFails : Sink := ⟨fun _ => true⟩

/-- The observable state of the output stream: bytes accepted so far and the
number of write calls made. -/
structure WStream where
  out : String
  idx : Nat
deriving DecidableEq

/-- One write call: on success the bytes are appended, on failure nothing is
written; either way the call is counted and the success flag returned
(callers in the source sometimes ignore it, exactly as Go code may ignore
the error result of `Write`). -/
def wwrite (w : Sink) (st : WStream) (s : String) : WStream × Bool :=
  if w.ok st.idx then (⟨st.out ++ s, st.idx + 1⟩, true)
  else (⟨st.out, st.idx + 1⟩, false)

/-- The indentation loop of `encodeOpenTag`/`encodeCloseTag`: write the
indent string `depth` times; the source ignores the `io.WriteString`
errors. -/
def writeIndent (w : Sink) (ind : String) : Nat → WStream → WStream
  | 0, st => st
  | n + 1, st => writeIndent w ind n (wwrite w st ind).1

/-- The shallow copy built at the top of `encodeOpenTag` (`elCopy`): same
name, scope and children, attribute values and content XML-escaped. The Go
code copies the attribute slice so that escaping never touches the input
tree; in the value model the copy is a new value. -/
def escapeElement (el : Element) : Element :=
  { el with
    Attr := el.Attr.map (fun a => { a with Value := xmlEncodeString a.Value }),
    Content := xmlEncodeString el.Content }

/-- `encodeOpenTag` of `marshal.go`: optional indentation (errors ignored),
then the start tag rendered from the escaped copy (template error, i.e. a
failed write, is returned), then in pretty mode a newline when the element
has children or no content (error ignored). The `Bool` result is `true`
exactly when the Go function returns a non-nil error. -/
def encodeOpenTag (e : Encoder) (w : Sink) (st : WStream) (el : Element)
    (scope : Scope) (depth : Nat) : WStream × Bool :=
  let st0 := if e.pretty then writeIndent w e.indent depth st else st
  let r := wwrite w st0 (renderStartTag (escapeElement el) scope.ns)
  if r.2 then
    (if e.pretty ∧ (el.Children ≠ [] ∨ el.Content = "") then (wwrite w r.1 "\n").1 else r.1,
     false)
  else (r.1, true)

/-- `encodeCloseTag` of `marshal.go`: in pretty mode the indent is written
`depth` times, but only for elements with children (the source guards each
loop iteration by `len(el.Children) > 0`); then the end tag (failed write
returned as error), then in pretty mode a newline (error ignored). -/
def encodeCloseTag (e : Encoder) (w : Sink) (st : WStream) (el : Element)
    (depth : Nat) : WStream × Bool :=
  let st0 := if e.pretty ∧ el.Children ≠ [] then writeIndent w e.indent depth st else st
  let r := wwrite w st0 (renderEndTag el)
  if r.2 then
    (if e.pretty then (wwrite w r.1 "\n").1 else r.1, false)
  else (r.1, true)

/-- `dropCommon` is the loop body of `diffScope`: while both lists are
nonempty and the fronts are equal, drop both fronts; at the first mismatch
or when either list is exhausted, return what remains of the child list. -/
def dropCommon : List XName → List XName → List XName
  | p :: ps, c :: cs => if c = p then dropCommon ps cs else c :: cs
  | _, cs => cs

/-- `diffScope` of `marshal.go`: for the root (no parent) the child scope is
returned whole; otherwise the common leading declarations shared with the
parent scope are dropped. -/
def diffScope (parent : Option Element) (child : Element) : Scope :=
  match parent with
  | none => child.Scope
  | some p => ⟨dropCommon p.Scope.ns child.Scope.ns⟩

/-- One level of `encode` of `marshal.go`, with the recursive call abstracted
as `rec`. In call order: the depth guard (`len(visited) > recursionLimit`
returns silently with no error), the cycle check (a visited node writes the
literal comment, error ignored, and returns no error), scope diffing, the
open tag (write failure propagated), for a leaf the escaped content (write
error ignored) or, when the content is also empty, an early return with no
close tag; then each child in order with the current node added to
`visited` (a child's failure aborts the remaining children and the close
tag), and finally the close tag. -/
def encodeBody (e : Encoder) (w : Sink) (a : List Element)
    (rec : WStream → Nat → Option Nat → List Nat → WStream × Bool)
    (st : WStream) (elIdx : Nat) (parentIdx : Option Nat) (visited : List Nat) :
    WStream × Bool :=
  if visited.length > recursionLimit then (st, false)
  else if elIdx ∈ visited then
    ((wwrite w st "<!-- cycle detected -->").1, false)
  else
    let el := getNode a elIdx
    let scope := diffScope (parentIdx.map (getNode a)) el
    let r1 := encodeOpenTag e w st el scope visited.length
    if r1.2 then r1
    else if el.Children = [] ∧ el.Content = "" then (r1.1, false)
    else
      let st2 := if el.Children = [] then (wwrite w r1.1 (xmlEncodeString el.Content)).1
                 else r1.1
      let rc := el.Children.foldl
        (fun acc ci =>
          if acc.2 then acc
          else rec acc.1 ci (some elIdx) (elIdx :: visited))
        (st2, false)
      if rc.2 then rc
      else encodeCloseTag e w rc.1 el visited.length

/-- `encode` of `marshal.go`, the recursive tree walk, with an explicit fuel
argument making the recursion structural. The fuel-exhausted case returns
silently exactly like the depth guard; it is unreachable from the public
entry points, which supply `recursionLimit + 2` fuel: along any call chain
`visited` grows by one per level, so the depth guard fires before the fuel
runs out. -/
def encodeF (e : Encoder) (w : Sink) (a : List Element) :
    Nat → WStream → Nat → Option Nat → List Nat → WStream × Bool
  | 0, st, _, _, _ => (st, false)
  | fuel + 1, st, elIdx, parentIdx, visited =>
    encodeBody e w a (encodeF e w a fuel) st elIdx parentIdx visited

/-- `Encode` of `marshal.go`: compact mode, empty visited set, root has no
parent. The Go writer argument is the sink policy; the result is the final
stream together with the error flag. -/
def Encode (w : Sink) (a : List Element) (root : Nat) : WStream × Bool :=
  encodeF ⟨"", "", false⟩ w a (recursionLimit + 2) ⟨"", 0⟩ root none []

/-- `Marshal` of `marshal.go`: `Encode` into an in-memory buffer, which
never fails, returning the accumulated bytes. -/
def Marshal (a : List Element) (root : Nat) : String :=
  (Encode neverFails a root).1.out

/-- `MarshalIndent` of `marshal.go`: like `Marshal` but in pretty mode with
the given per-line leading string and indent. -/
def MarshalIndent (a : List Element) (root : Nat) (pfix indent : String) : String :=
  (encodeF ⟨pfix, indent, true⟩ neverFails a (recursionLimit + 2) ⟨"", 0⟩ root none []).1.out

/-- Modelled from the spec (section 4.2 wording): the length of the longest
run of pairwise-identical declarations at the front of both lists, taken
element-by-element and stopping at the first mismatch or when either list is
exhausted. Used to state C5 independently of the source loop. -/
def leadMatch : List XName → List XName → Nat
  | p :: ps, c :: cs => if c = p then leadMatch ps cs + 1 else 0
  | _, _ => 0

/-- Arena update erasing the text content of node `i`, used to state that a
node's content plays no role in its encoding once it has children. -/
def eraseContent (a : List Element) (i : Nat) : List Element :=
  a.set i { getNode a i with Content := "" }

/-- Concrete element for C3: tag `module`, one attribute `name` with decoded
value `<`, no children, no content. -/
def moduleAttrEl : Element := ⟨⟨"", "module"⟩, [⟨⟨"", "name"⟩, "<"⟩], ⟨[]⟩, "", []⟩

/-- Concrete element for C3: tag `module`, no attributes, decoded content
`<>`, no children. -/
def moduleContentEl : Element := ⟨⟨"", "module"⟩, [], ⟨[]⟩, "<>", []⟩

/-- Concrete two-node arena for C2: root `a` with a single child `b`. -/
def arenaAB : List Element :=
  [⟨⟨"", "a"⟩, [], ⟨[]⟩, "", [1]⟩, ⟨⟨"", "b"⟩, [], ⟨[]⟩, "", []⟩]

/-- Concrete cyclic arena for C6: node `a` is its own child. -/
def arenaCyc : List Element := [⟨⟨"", "a"⟩, [], ⟨[]⟩, "", [0]⟩]

/-- Concrete leaf for C7: tag `a`, content `x`. -/
def leafX : Element := ⟨⟨"", "a"⟩, [], ⟨[]⟩, "x", []⟩

/-- Sink for C7 whose second write call (index 1) fails; for `Encode` on
`leafX` that is exactly the write of the text content, whose error the
source ignores. -/
def failSecondWrite : Sink := ⟨fun i => decide (i ≠ 1)⟩

/-- Concrete arena for C9: root `a` with text content `zap` and one child
`b`; the content must be dropped because children win. -/
def arenaMixed : List Element :=
  [⟨⟨"", "a"⟩, [], ⟨[]⟩, "zap", [1]⟩, ⟨⟨"", "b"⟩, [], ⟨[]⟩, "", []⟩]

/-- Concrete default-namespace declaration used in the C5 witness. -/
def nsDecl1 : XName := ⟨"urn:one", ""⟩

/-- Concrete prefixed namespace declaration used in the C5 witness. -/
def nsDecl2 : XName := ⟨"urn:two", "p"⟩

/-- Concrete parent element for the C5 witness, with a one-entry scope. -/
def scopeParentEl : Element := ⟨⟨"", "r"⟩, [], ⟨[nsDecl1]⟩, "", []⟩

/-- Concrete child element for the C5 witness whose scope equals its
parent's. -/
def scopeSameEl : Element := ⟨⟨"", "c"⟩, [], ⟨[nsDecl1]⟩, "", []⟩

/-- Concrete child element for the C5 witness whose scope extends its
parent's by one declaration. -/
def scopeExtEl : Element := ⟨⟨"", "c"⟩, [], ⟨[nsDecl1, nsDecl2]⟩, "", []⟩

/-- Unfolding `encodeF` one level at a successor fuel value. -/
theorem encodeF_succ (e : Encoder) (w : Sink) (a : List Element) (fuel : Nat)
    (st : WStream) (i : Nat) (p : Option Nat) (v : List Nat) :
    encodeF e w a (fuel + 1) st i p v = encodeBody e w a (encodeF e w a fuel) st i p v := rfl

/-- Unfolding `Encode` one level into `encodeBody`. -/
theorem Encode_unfold (w : Sink) (a : List Element) (root : Nat) :
    Encode w a root =
      encodeBody ⟨"", "", false⟩ w a (encodeF ⟨"", "", false⟩ w a (recursionLimit + 1))
        ⟨"", 0⟩ root none [] := rfl

/-- The depth guard of the encoder body: a visited set beyond the recursion
limit produces no output and no error. -/
theorem encodeBody_depth (e : Encoder) (w : Sink) (a : List Element)
    (rec : WStream → Nat → Option Nat → List Nat → WStream × Bool)
    (st : WStream) (i : Nat) (p : Option Nat) (v : List Nat)
    (h : v.length > recursionLimit) :
    encodeBody e w a rec st i p v = (st, false) := by
  simp [encodeBody, h]

/-- The depth guard lifted to `encodeF`, at every fuel value (the
fuel-exhausted case coincides with the guard by definition). -/
theorem encodeF_big_visited (e : Encoder) (w : Sink) (a : List Element) (fuel : Nat)
    (st : WStream) (i : Nat) (p : Option Nat) (v : List Nat)
    (h : v.length > recursionLimit) :
    encodeF e w a fuel st i p v = (st, false) := by
  cases fuel with
  | zero => rfl
  | succ g => rw [encodeF_succ]; exact encodeBody_depth e w a _ st i p v h

/-- The encoder body only calls its recursion argument at the extended
visited list, so pointwise-equal recursions there give equal results. -/
theorem encodeBody_rec_congr (e : Encoder) (w : Sink) (a : List Element)
    (r1 r2 : WStream → Nat → Option Nat → List Nat → WStream × Bool)
    (st : WStream) (i : Nat) (p : Option Nat) (v : List Nat)
    (h : ∀ st2 ci, r1 st2 ci (some i) (i :: v) = r2 st2 ci (some i) (i :: v)) :
    encodeBody e w a r1 st i p v = encodeBody e w a r2 st i p v := by
  have hfg : (fun (acc : WStream × Bool) (ci : Nat) =>
        if acc.2 then acc else r1 acc.1 ci (some i) (i :: v))
      = (fun (acc : WStream × Bool) (ci : Nat) =>
        if acc.2 then acc else r2 acc.1 ci (some i) (i :: v)) := by
    funext acc ci
    by_cases hb : acc.2 = true <;> simp [hb, h]
  simp only [encodeBody, hfg]

/-- Fuel is irrelevant above the amount the public entry points supply: the
depth guard fires before any fuel at least `recursionLimit + 2` minus the
visited length can run out, so all such fuel values give the same result.
This discharges the termination claim for the fuel-based model: the encoder
needs only boundedly much work on any input, cyclic or arbitrarily deep. -/
theorem encodeF_fuel_stable (e : Encoder) (w : Sink) (a : List Element) :
    ∀ f1 f2 st i p v, recursionLimit + 2 ≤ v.length + f1 →
      recursionLimit + 2 ≤ v.length + f2 →
      encodeF e w a f1 st i p v = encodeF e w a f2 st i p v := by
  intro f1
  induction f1 with
  | zero =>
    intro f2 st i p v h1 h2
    have hv : v.length > recursionLimit := by omega
    rw [encodeF_big_visited e w a 0 st i p v hv, encodeF_big_visited e w a f2 st i p v hv]
  | succ g1 ih =>
    intro f2 st i p v h1 h2
    by_cases hv : v.length > recursionLimit
    · rw [encodeF_big_visited e w a _ st i p v hv, encodeF_big_visited e w a f2 st i p v hv]
    · obtain ⟨g2, rfl⟩ : ∃ g2, f2 = g2 + 1 := by
        cases f2 with
        | zero => exact absurd (by omega : v.length > recursionLimit) hv
        | succ g2 => exact ⟨g2, rfl⟩
      rw [encodeF_succ, encodeF_succ]
      exact encodeBody_rec_congr e w a _ _ st i p v
        (fun st2 ci => ih g2 st2 ci (some i) (i :: v)
          (by simp only [List.length_cons]; omega)
          (by simp only [List.length_cons]; omega))

/-- Replacement with a nonempty replacement string never empties a nonempty
list. -/
theorem replaceFuel_ne_nil (pat rep : List Char) (hrep : rep ≠ []) :
    ∀ fuel s, s ≠ [] → replaceFuel pat rep fuel s ≠ [] := by
  intro fuel
  induction fuel with
  | zero => intro s hs; simpa [replaceFuel] using hs
  | succ n ih =>
    intro s hs
    match s with
    | [] => exact absurd rfl hs
    | c :: rest =>
      simp only [replaceFuel]
      split
      · simp [hrep]
      · simp

/-- String-level version of `replaceFuel_ne_nil`. -/
theorem strReplace_ne_empty (s pat rep : String) (hs : s ≠ "") (hrep : rep ≠ "") :
    strReplace s pat rep ≠ "" := by
  obtain ⟨sd⟩ := s
  obtain ⟨rd⟩ := rep
  have hsd : sd ≠ [] := fun h => hs (by cases h; rfl)
  have hrd : rd ≠ [] := fun h => hrep (by cases h; rfl)
  intro h
  have h2 := congrArg String.data h
  simp only [strReplace] at h2
  exact replaceFuel_ne_nil pat.data rd hrd sd.length sd hsd h2

/-- Escaping the empty string yields the empty string. -/
theorem xmlEncodeString_empty : xmlEncodeString "" = "" := rfl

/-- Escaping a nonempty string yields a nonempty string (all four
replacement entities are nonempty). -/
theorem xmlEncodeString_ne_empty (s : String) (hs : s ≠ "") : xmlEncodeString s ≠ "" := by
  show strReplace (strReplace (strReplace (strReplace s "&" "&amp;") "<" "&lt;") ">" "&gt;")
    "\"" "&quot;" ≠ ""
  apply strReplace_ne_empty _ _ _ ?_ (by decide)
  apply strReplace_ne_empty _ _ _ ?_ (by decide)
  apply strReplace_ne_empty _ _ _ ?_ (by decide)
  exact strReplace_ne_empty _ _ _ hs (by decide)

/-- The source's common-head loop drops exactly the longest identical
leading run, as counted by the spec-side `leadMatch`. -/
theorem dropCommon_eq_drop (ps : List XName) :
    ∀ cs, dropCommon ps cs = cs.drop (leadMatch ps cs) := by
  induction ps with
  | nil => intro cs; cases cs <;> simp [dropCommon, leadMatch]
  | cons p ps ih =>
    intro cs
    cases cs with
    | nil => simp [dropCommon, leadMatch]
    | cons c cs =>
      by_cases h : c = p
      · simp [dropCommon, leadMatch, h, ih]
      · simp [dropCommon, leadMatch, h]

/-- Identical lists leave nothing after dropping the common run. -/
theorem dropCommon_self (l : List XName) : dropCommon l l = [] := by
  induction l with
  | nil => rfl
  | cons x l ih => simp [dropCommon, ih]

/-- A child list extending the parent list by one declaration leaves
exactly that declaration. -/
theorem dropCommon_extend (l : List XName) (d : XName) : dropCommon l (l ++ [d]) = [d] := by
  induction l with
  | nil => rfl
  | cons x l ih => simp [dropCommon, ih]

/-- Looking up a node after erasing the content of node `i` gives the same
node with content erased at `i` and the unchanged node elsewhere. -/
theorem getNode_eraseContent (a : List Element) (i j : Nat) :
    getNode (eraseContent a i) j =
      if j = i then { getNode a i with Content := "" } else getNode a j := by
  simp only [getNode, eraseContent, List.getD_eq_getElem?_getD, List.getElem?_set]
  by_cases h : j = i
  · subst h
    simp only [if_pos rfl]
    by_cases hl : j < a.length
    · simp [hl]
    · rw [if_neg hl, List.getElem?_eq_none (by omega)]
      simp [dfltElement]
  · rw [if_neg h, if_neg (fun hh : i = j => h hh.symm)]

/-- Erasing content touches no scope. -/
theorem eraseContent_scope (a : List Element) (i q : Nat) :
    (getNode (eraseContent a i) q).Scope = (getNode a q).Scope := by
  rw [getNode_eraseContent]; by_cases h : q = i <;> simp [h]

/-- Scope diffing reads only the parent's scope, which content erasure
leaves intact. -/
theorem diffScope_eraseContent_parent (a : List Element) (i : Nat) (p : Option Nat)
    (c : Element) :
    diffScope (p.map (getNode (eraseContent a i))) c = diffScope (p.map (getNode a)) c := by
  cases p with
  | none => rfl
  | some q => simp [diffScope, eraseContent_scope]

/-- Scope diffing reads only the child's scope, not its content. -/
theorem diffScope_content (p : Option Element) (el : Element) :
    diffScope p { el with Content := "" } = diffScope p el := by
  cases p <;> rfl

/-- For an element with children the open tag does not depend on the
content: the template condition is already true through the children and
the pretty newline condition likewise. -/
theorem encodeOpenTag_eraseContent (e : Encoder) (w : Sink) (st : WStream) (el : Element)
    (scope : Scope) (d : Nat) (hch : el.Children ≠ []) :
    encodeOpenTag e w st { el with Content := "" } scope d = encodeOpenTag e w st el scope d := by
  simp [encodeOpenTag, escapeElement, renderStartTag, startTagHead, hch]

/-- The close tag never reads the content. -/
theorem encodeCloseTag_content (e : Encoder) (w : Sink) (st : WStream) (el : Element)
    (d : Nat) :
    encodeCloseTag e w st { el with Content := "" } d = encodeCloseTag e w st el d := rfl

/-- Erasing the content of any node that has children changes nothing about
any encoding run over the arena. -/
theorem encodeF_eraseContent (e : Encoder) (w : Sink) (a : List Element) (i : Nat)
    (hch : (getNode a i).Children ≠ []) :
    ∀ fuel st j p v,
      encodeF e w (eraseContent a i) fuel st j p v = encodeF e w a fuel st j p v := by
  intro fuel
  induction fuel with
  | zero => intro st j p v; rfl
  | succ fuel ih =>
    intro st j p v
    rw [encodeF_succ, encodeF_succ]
    simp only [encodeBody, ih, diffScope_eraseContent_parent]
    by_cases hj : j = i
    · subst hj
      rw [getNode_eraseContent, if_pos rfl, diffScope_content,
        encodeOpenTag_eraseContent e w st _ _ _ hch]
      simp [hch, encodeCloseTag_content]
    · rw [getNode_eraseContent, if_neg hj]

/-- Compact encoding of a single leaf: the start tag, then for nonempty
content the escaped content and the close tag. -/
theorem Marshal_leaf (el : Element) (hleaf : el.Children = []) :
    Marshal [el] 0 =
      if el.Content = "" then renderStartTag (escapeElement el) el.Scope.ns
      else renderStartTag (escapeElement el) el.Scope.ns ++ xmlEncodeString el.Content
             ++ renderEndTag el := by
  have hnode : getNode [el] 0 = el := rfl
  by_cases hc : el.Content = ""
  · simp [Marshal, Encode_unfold, encodeBody, hnode, hleaf, hc, encodeOpenTag, wwrite,
      neverFails, diffScope, recursionLimit, String.empty_append]
  · simp [Marshal, Encode_unfold, encodeBody, hnode, hleaf, hc, encodeOpenTag, encodeCloseTag,
      wwrite, neverFails, diffScope, recursionLimit, String.empty_append, String.append_assoc]

/-- The template takes the self-closing branch exactly for a childless
element with empty content (escaping keeps emptiness). -/
theorem renderStartTag_selfclose (el : Element) (nsList : List XName)
    (h1 : el.Children = []) (h2 : el.Content = "") :
    renderStartTag (escapeElement el) nsList = startTagHead (escapeElement el) nsList ++ " />" := by
  unfold renderStartTag
  rw [if_neg (by simp [escapeElement, h1, h2, xmlEncodeString_empty])]

/-- The template takes the plain `>` branch for an element with children or
nonempty content (escaping keeps nonemptiness). -/
theorem renderStartTag_open (el : Element) (nsList : List XName)
    (h : el.Children ≠ [] ∨ el.Content ≠ "") :
    renderStartTag (escapeElement el) nsList = startTagHead (escapeElement el) nsList ++ ">" := by
  unfold renderStartTag
  rw [if_pos]
  rcases h with h | h
  · exact Or.inl h
  · exact Or.inr (xmlEncodeString_ne_empty _ h)

/-- C1: the escape round-trip fails on the code. Encoding the literal
string `&lt;` does give `&amp;lt;` (ampersand is encoded first, as the
claim says), but `xmlDecodeString` applies the mappings in the same table
order, decoding `&amp;` first instead of last, so `&amp;lt;` decodes to `<`
and the round-trip `xmlDecodeString (xmlEncodeString s) = s` is violated at
`s = "&lt;"`. -/
theorem c1_escape_roundtrip_fails :
    xmlEncodeString "&lt;" = "&amp;lt;" ∧
    xmlDecodeString "&amp;lt;" = "<" ∧
    xmlDecodeString (xmlEncodeString "&lt;") ≠ "&lt;" := by decide

/-- C2: the pretty printer writes indentation only and ignores the per-line
leading string: with leading string `@@` the output of `MarshalIndent`
contains no `@@` at all, on a nested tree (child at depth 1 gets one copy
of the indent) and on a single root line alike, contradicting the claim and
the doc comment of `MarshalIndent` in `marshal.go`. -/
theorem c2_pfix_never_written :
    MarshalIndent arenaAB 0 "@@" "  " = "<a>\n  <b />\n</a>\n" ∧
    MarshalIndent [moduleAttrEl] 0 "@@" "  " = "<module name=\"&lt;\" />\n" := ⟨rfl, rfl⟩

/-- C3: byte-exact end-to-end outputs with escaping applied exactly once:
the `module` element with attribute `name` of decoded value `<` pretty
prints as the self-closing tag with the escaped attribute and a newline,
and the `module` element with decoded content `<>` pretty prints with the
escaped content between open and close tags and a newline. -/
theorem c3_concrete_byte_exact :
    MarshalIndent [moduleAttrEl] 0 "" "  " = "<module name=\"&lt;\" />\n" ∧
    MarshalIndent [moduleContentEl] 0 "" "  " = "<module>&lt;&gt;</module>\n" := ⟨rfl, rfl⟩

/-- C4: the start tag ends in ` />` (space before the slash) exactly when
the element has no children and no content, and in `>` when it has either;
a leaf with nonempty content `c` is encoded as the open tag, then the
escaped `c`, then the separate close tag. -/
theorem c4_self_closing_form (el : Element) (nsList : List XName) :
    (el.Children = [] → el.Content = "" →
      renderStartTag (escapeElement el) nsList = startTagHead (escapeElement el) nsList ++ " />") ∧
    (el.Children ≠ [] ∨ el.Content ≠ "" →
      renderStartTag (escapeElement el) nsList = startTagHead (escapeElement el) nsList ++ ">") ∧
    (el.Children = [] → el.Content ≠ "" →
      Marshal [el] 0 = renderStartTag (escapeElement el) el.Scope.ns
        ++ xmlEncodeString el.Content ++ renderEndTag el) := by
  refine ⟨fun h1 h2 => renderStartTag_selfclose el nsList h1 h2,
    fun h => renderStartTag_open el nsList h,
    fun h1 h2 => ?_⟩
  rw [Marshal_leaf el h1, if_neg h2]

/-- C4 witness: the leaf `a` with content `x` takes the open-content-close
form, and the childless contentless `module` element takes the self-closing
form. -/
theorem c4_self_closing_form_witness :
    (leafX.Children = [] ∧ leafX.Content ≠ "" ∧
      Marshal [leafX] 0 = renderStartTag (escapeElement leafX) leafX.Scope.ns
        ++ xmlEncodeString leafX.Content ++ renderEndTag leafX) ∧
    (moduleAttrEl.Children = [] ∧ moduleAttrEl.Content = "" ∧
      renderStartTag (escapeElement moduleAttrEl) [] =
        startTagHead (escapeElement moduleAttrEl) [] ++ " />") := ⟨⟨by decide, by decide,
      (c4_self_closing_form leafX leafX.Scope.ns).2.2 (by decide) (by decide)⟩,
    by decide, by decide, (c4_self_closing_form moduleAttrEl []).1 (by decide) (by decide)⟩

/-- C5: `diffScope` with no parent returns the child scope whole; with a
parent it returns exactly the suffix of the child scope after the longest
leading run of pairwise-identical declarations (counted by the spec-side
`leadMatch`); in particular an identical scope leaves no declarations to
emit and a scope extending the parent's by one declaration leaves exactly
that declaration. -/
theorem c5_diffScope_common_run :
    (∀ c : Element, diffScope none c = c.Scope) ∧
    (∀ p c : Element,
      (diffScope (some p) c).ns = c.Scope.ns.drop (leadMatch p.Scope.ns c.Scope.ns)) ∧
    (∀ p c : Element, p.Scope.ns = c.Scope.ns → (diffScope (some p) c).ns = []) ∧
    (∀ p c : Element, ∀ d : XName,
      c.Scope.ns = p.Scope.ns ++ [d] → (diffScope (some p) c).ns = [d]) := by
  refine ⟨fun c => rfl, fun p c => ?_, fun p c h => ?_, fun p c d h => ?_⟩
  · simp [diffScope, dropCommon_eq_drop]
  · simp [diffScope, h, dropCommon_self]
  · simp [diffScope, h, dropCommon_extend]

/-- C5 witness: a child with the same one-entry scope as its parent diffs
to nothing, and a child extending that scope by one declaration diffs to
exactly that declaration. -/
theorem c5_diffScope_common_run_witness :
    (scopeParentEl.Scope.ns = scopeSameEl.Scope.ns ∧
      (diffScope (some scopeParentEl) scopeSameEl).ns = []) ∧
    (scopeExtEl.Scope.ns = scopeParentEl.Scope.ns ++ [nsDecl2] ∧
      (diffScope (some scopeParentEl) scopeExtEl).ns = [nsDecl2]) :=
  ⟨⟨by decide, c5_diffScope_common_run.2.2.1 scopeParentEl scopeSameEl (by decide)⟩,
   ⟨by decide, c5_diffScope_common_run.2.2.2 scopeParentEl scopeExtEl nsDecl2 (by decide)⟩⟩

/-- C6: the structural guards of the encoder. A visited set longer than the
recursion limit makes the encoder return silently, writing nothing and
reporting no error, at every fuel value; a node already in the visited set
makes it write the literal `<!-- cycle detected -->` and return no error;
supplying any surplus of fuel beyond what `Encode` uses changes nothing, so
the encoder converges in bounded work on every input; and the one-node
cyclic arena encodes, terminating, to the open tag, the cycle comment in
place of the repeated node, and the close tag. -/
theorem c6_cycle_and_depth_guards :
    (∀ (e : Encoder) (w : Sink) (a : List Element) (fuel : Nat) (st : WStream) (i : Nat)
        (p : Option Nat) (v : List Nat),
      v.length > recursionLimit → encodeF e w a fuel st i p v = (st, false)) ∧
    (∀ (e : Encoder) (w : Sink) (a : List Element) (fuel : Nat) (st : WStream) (i : Nat)
        (p : Option Nat) (v : List Nat),
      ¬ v.length > recursionLimit → i ∈ v →
      encodeF e w a (fuel + 1) st i p v = ((wwrite w st "<!-- cycle detected -->").1, false)) ∧
    (∀ (w : Sink) (a : List Element) (root extra : Nat),
      encodeF ⟨"", "", false⟩ w a (recursionLimit + 2 + extra) ⟨"", 0⟩ root none [] =
        Encode w a root) ∧
    Marshal arenaCyc 0 = "<a><!-- cycle detected --></a>" := by
  refine ⟨fun e w a fuel st i p v h => encodeF_big_visited e w a fuel st i p v h,
    fun e w a fuel st i p v h1 h2 => ?_, fun w a root extra => ?_, rfl⟩
  · rw [encodeF_succ]
    simp [encodeBody, h1, h2]
  · simp only [Encode]
    exact encodeF_fuel_stable ⟨"", "", false⟩ w a (recursionLimit + 2 + extra)
      (recursionLimit + 2) ⟨"", 0⟩ root none []
      (by simp only [List.length_nil]; omega) (by simp only [List.length_nil]; omega)

set_option maxRecDepth 4000 in
/-- C6 witness: a visited list of 201 ancestors trips the depth guard with
no output, and a root already on the path yields exactly the cycle
comment. -/
theorem c6_cycle_and_depth_guards_witness :
    ((List.replicate 201 0).length > recursionLimit ∧
      encodeF ⟨"", "", false⟩ neverFails [] 5 ⟨"", 0⟩ 0 none (List.replicate 201 0) =
        (⟨"", 0⟩, false)) ∧
    (¬ ([0] : List Nat).length > recursionLimit ∧ 0 ∈ ([0] : List Nat) ∧
      encodeF ⟨"", "", false⟩ neverFails arenaCyc (3 + 1) ⟨"", 0⟩ 0 none [0] =
        ((wwrite neverFails ⟨"", 0⟩ "<!-- cycle detected -->").1, false)) :=
  ⟨⟨by decide,
    c6_cycle_and_depth_guards.1 ⟨"", "", false⟩ neverFails [] 5 ⟨"", 0⟩ 0 none
      (List.replicate 201 0) (by decide)⟩,
   by decide, by decide,
    c6_cycle_and_depth_guards.2.1 ⟨"", "", false⟩ neverFails arenaCyc 3 ⟨"", 0⟩ 0 none [0]
      (by decide) (by decide)⟩

/-- C7: a failed write is not always propagated. Encoding the leaf `a` with
content `x` issues three writes (start tag, content, end tag); with a sink
that fails exactly the content write, the content is lost from the output
(`<a></a>` instead of `<a>x</a>`) yet `Encode` reports no error, because
the source ignores the result of `w.Write` for text content — contradicting
the claim and the doc comment of `Encode` in `marshal.go`. -/
theorem c7_content_write_error_swallowed :
    Encode failSecondWrite [leafX] 0 = (⟨"<a></a>", 3⟩, false) ∧
    failSecondWrite.ok 1 = false ∧
    Encode neverFails [leafX] 0 = (⟨"<a>x</a>", 3⟩, false) := by decide

/-- C9: once an element has children, its content plays no part in any
encoding of any tree containing it: erasing the content of such a node
changes neither the compact nor the pretty output, so the encoder emits
only the open tag, the children in order and the close tag for it. -/
theorem c9_content_ignored_with_children (a : List Element) (i : Nat)
    (hch : (getNode a i).Children ≠ []) :
    (∀ root, Marshal (eraseContent a i) root = Marshal a root) ∧
    (∀ root pfix indent,
      MarshalIndent (eraseContent a i) root pfix indent = MarshalIndent a root pfix indent) := by
  constructor
  · intro root
    simp only [Marshal, Encode]
    rw [encodeF_eraseContent _ _ a i hch]
  · intro root pfix indent
    simp only [MarshalIndent]
    rw [encodeF_eraseContent _ _ a i hch]

/-- C9 witness: the root `a` with content `zap` and one child `b` encodes
to `<a><b /></a>` — the content bytes appear nowhere — and erasing the
content changes nothing. -/
theorem c9_content_ignored_with_children_witness :
    (getNode arenaMixed 0).Children ≠ [] ∧
    Marshal arenaMixed 0 = "<a><b /></a>" ∧
    Marshal (eraseContent arenaMixed 0) 0 = Marshal arenaMixed 0 :=
  ⟨by decide, by decide, (c9_content_ignored_with_children arenaMixed 0 (by decide)).1 0⟩

/-- C10: no content is represented solely as zero length, and a childless
element can never produce an open tag immediately followed by a close tag:
with empty content the output is the self-closing head and ` />` (identical
for absent and empty content, which coincide in the byte-slice model), and
with nonempty content the escaped content standing between `>` and the
close tag is itself nonempty. -/
theorem c10_empty_content_self_closes (el : Element) (hleaf : el.Children = []) :
    (el.Content = "" →
      Marshal [el] 0 = startTagHead (escapeElement el) el.Scope.ns ++ " />") ∧
    (el.Content ≠ "" →
      xmlEncodeString el.Content ≠ "" ∧
      Marshal [el] 0 = startTagHead (escapeElement el) el.Scope.ns ++ ">"
        ++ xmlEncodeString el.Content ++ renderEndTag el) := by
  constructor
  · intro hc
    rw [Marshal_leaf el hleaf, if_pos hc, renderStartTag_selfclose el _ hleaf hc]
  · intro hc
    refine ⟨xmlEncodeString_ne_empty _ hc, ?_⟩
    rw [Marshal_leaf el hleaf, if_neg hc, renderStartTag_open el _ (Or.inr hc),
      String.append_assoc]

/-- C10 witness: the empty-content `module` leaf self-closes, and the
`module` leaf with content `<>` puts the nonempty escaped content between
the tags. -/
theorem c10_empty_content_self_closes_witness :
    (moduleAttrEl.Children = [] ∧ moduleAttrEl.Content = "" ∧
      Marshal [moduleAttrEl] 0 =
        startTagHead (escapeElement moduleAttrEl) moduleAttrEl.Scope.ns ++ " />") ∧
    (moduleContentEl.Children = [] ∧ moduleContentEl.Content ≠ "" ∧
      (xmlEncodeString moduleContentEl.Content ≠ "" ∧
        Marshal [moduleContentEl] 0 =
          startTagHead (escapeElement moduleContentEl) moduleContentEl.Scope.ns ++ ">"
            ++ xmlEncodeString moduleContentEl.Content ++ renderEndTag moduleContentEl)) :=
  ⟨⟨by decide, by decide,
    (c10_empty_content_self_closes moduleAttrEl (by decide)).1 (by decide)⟩,
   by decide, by decide,
    (c10_empty_content_self_closes moduleContentEl (by decide)).2 (by decide)⟩
